import Mathlib

/-!
# Go tour web crawler (`main.go`): shallow embedding and verification

`Crawl` starts one goroutine per call and then blocks on `for <-channelQuit {}` until that
goroutine closes the channel (the deferred `close`), and the goroutine calls
`Crawl(u, depth-1, fetcher)` for each link as an ordinary, blocking call.  Every call
therefore runs to completion before its caller continues: the program is a sequential
recursion, which is what is embedded here, with the package variable `cacheURL`, standard
output and the fetcher's own state passed explicitly.  Two traces are kept beside them, of
the calls of `fetcher.Fetch` and of the recursive calls of `Crawl`, so that what is called,
and how often, can be stated.
-/

namespace Crawler

/-- The three results of a `Fetch` call, `(body, urls, err)`; a nil `err` is `none`, a
non-nil one is `some` of its message. -/
abbrev FetchResult := String × List String × Option String

/-- The struct `CacheFetcher` (lines 14-18). -/
structure CacheFetcher where
  Body : String
  Urls : List String
  Error : Option String
deriving DecidableEq, Repr

/-- The method `CacheFetcher.Fetch` (lines 20-22): it ignores `url` and returns the fields. -/
def CacheFetcher.Fetch (cacheFetcher : CacheFetcher) (_url : String) : FetchResult :=
  (cacheFetcher.Body, cacheFetcher.Urls, cacheFetcher.Error)

/-- The interface `Fetcher` (lines 8-12).  An implementation may keep state of its own, of
type `σ`, which a call to `Fetch` reads and may change. -/
structure Fetcher (σ : Type) where
  Fetch : σ → String → FetchResult × σ

/-- A fetcher without state: `Fetch` is the function `f`. -/
def pureFetcher (f : String → FetchResult) : Fetcher Unit :=
  ⟨fun s url => (f url, s)⟩

/-- What `Crawl` writes to standard output.  `Found url body` is line 61,
`fmt.Printf("found: %s %q\n", url, body)`; `FetchFailed url err` is line 58,
`fmt.Println(err)`, executed by the call for `url` (the printed text is `err` alone). -/
inductive Observation where
  | Found (url body : String)
  | FetchFailed (url err : String)
deriving DecidableEq, Repr

/-- The state `Crawl` runs in. -/
structure World (σ : Type) where
  /-- The package variable `cacheURL` (line 24), a Go map. -/
  cacheURL : String → Option CacheFetcher
  /-- Standard output, oldest first. -/
  stdout : List Observation
  /-- Trace of the calls `fetcher.Fetch(url)` of line 48, oldest first, each with what it
  returned. -/
  fetchLog : List (String × FetchResult)
  /-- Trace of the calls `Crawl(u, depth-1, fetcher)` of line 63, oldest first. -/
  callLog : List (String × Int)
  /-- The fetcher's own state. -/
  fetcherState : σ

/-- The state at program start: `cacheURL` is the empty map of line 24, nothing printed. -/
def World.init {σ : Type} (s : σ) : World σ :=
  ⟨fun _ => none, [], [], [], s⟩

/-- Map assignment `cacheURL[url] = c`. -/
def World.store {σ : Type} (w : World σ) (url : String) (c : CacheFetcher) : World σ :=
  { w with cacheURL := fun k => if k = url then some c else w.cacheURL k }

/-- One more line on standard output. -/
def World.print {σ : Type} (w : World σ) (o : Observation) : World σ :=
  { w with stdout := w.stdout ++ [o] }

/-- Record one call of line 63 in the trace. -/
def World.called {σ : Type} (w : World σ) (u : String) (depth : Int) : World σ :=
  { w with callLog := w.callLog ++ [(u, depth)] }

/-- Lines 42-56 of `Crawl`: look `url` up in `cacheURL`; on a hit the stored
`CacheFetcher` answers, on a miss `fetcher.Fetch(url)` is called and its three results are
stored under `url`. -/
def resolve {σ : Type} (fetcher : Fetcher σ) (url : String) (w : World σ) :
    FetchResult × World σ :=
  match w.cacheURL url with
  | some cacheFetcher => (cacheFetcher.Fetch url, w)
  | none =>
    let r := fetcher.Fetch w.fetcherState url
    (r.1, { (w.store url ⟨r.1.1, r.1.2.1, r.1.2.2⟩) with
              fetchLog := w.fetchLog ++ [(url, r.1)], fetcherState := r.2 })

/-- The body of `Crawl` (lines 36-65) for `depth = n` when `0 ≤ depth`: `0` is the early
return of lines 36-38, and in `n + 1` the recursive calls are made with `n`. -/
def crawlAux {σ : Type} (fetcher : Fetcher σ) : Nat → String → World σ → World σ
  | 0, _, w => w
  | n + 1, url, w =>
    let r := resolve fetcher url w
    match r.1.2.2 with
    | some err => r.2.print (.FetchFailed url err)
    | none =>
      r.1.2.1.foldl (fun acc u => crawlAux fetcher n u (acc.called u n))
        (r.2.print (.Found url r.1.1))

/-- The function `Crawl` (lines 29-69).  `depth` is a Go `int`; `depth.toNat` is `0` exactly
when `depth ≤ 0`, and `depth - 1` never underflows where it is computed (`depth ≥ 1`). -/
def Crawl {σ : Type} (url : String) (depth : Int) (fetcher : Fetcher σ) (w : World σ) :
    World σ :=
  crawlAux fetcher depth.toNat url w

/-- The function `Crawl` transcribed with its recursion as written,
`Crawl(u, depth-1, fetcher)` on the Go `int`, and a bound `fuel` on the nesting of calls:
`none` when a call would nest deeper than `fuel`. -/
def crawlFuel {σ : Type} (fetcher : Fetcher σ) :
    Nat → String → Int → World σ → Option (World σ)
  | 0, _, _, _ => none
  | fuel + 1, url, depth, w =>
    if depth ≤ 0 then some w
    else
      let r := resolve fetcher url w
      match r.1.2.2 with
      | some err => some (r.2.print (.FetchFailed url err))
      | none =>
        r.1.2.1.foldlM
          (fun acc u => crawlFuel fetcher fuel u (depth - 1) (acc.called u (depth - 1)))
          (r.2.print (.Found url r.1.1))

/-- The struct `fakeResult` (lines 78-81). -/
structure fakeResult where
  body : String
  urls : List String
deriving DecidableEq, Repr

/-- The type `fakeFetcher` (line 76), a Go map from url to `*fakeResult`, as the list of
its entries. -/
abbrev fakeFetcher := List (String × fakeResult)

/-- The method `fakeFetcher.Fetch` (lines 83-88); the error of line 87 is
`fmt.Errorf("not found: %s", url)`. -/
def fakeFetcher.Fetch (f : fakeFetcher) (url : String) : FetchResult :=
  match f.lookup url with
  | some res => (res.body, res.urls, none)
  | none => ("", [], some ("not found: " ++ url))

/-- The package variable `fetcher` (lines 91-121). -/
def fetcher : fakeFetcher :=
  [ ("https://golang.org/",
      ⟨"The Go Programming Language",
        ["https://golang.org/pkg/", "https://golang.org/cmd/"]⟩),
    ("https://golang.org/pkg/",
      ⟨"Packages",
        ["https://golang.org/", "https://golang.org/cmd/", "https://golang.org/pkg/fmt/",
          "https://golang.org/pkg/os/"]⟩),
    ("https://golang.org/pkg/fmt/",
      ⟨"Package fmt", ["https://golang.org/", "https://golang.org/pkg/"]⟩),
    ("https://golang.org/pkg/os/",
      ⟨"Package os", ["https://golang.org/", "https://golang.org/pkg/"]⟩) ]

/-- A link graph in which `t` is reached first on the longer path `s → x → t` and then
again on the shorter one `s → t`. -/
def detour : fakeFetcher :=
  [ ("s", ⟨"S", ["x", "t"]⟩), ("x", ⟨"X", ["t"]⟩), ("t", ⟨"T", ["u"]⟩), ("u", ⟨"U", []⟩) ]

/-! ## Specification vocabulary -/

/-- The entry that line 50 stores for the results `r` of a `Fetch` call. -/
def entryOf (r : FetchResult) : CacheFetcher := ⟨r.1, r.2.1, r.2.2⟩

/-- `w'` comes from `w` by the fetches `new`, in this order: each was made for a url that
was not a key of `cacheURL`, no url was fetched twice, what each returned is stored under
its url, and nothing else in `cacheURL` has changed. -/
structure Extends {σ : Type} (w w' : World σ) (new : List (String × FetchResult)) : Prop where
  log : w'.fetchLog = w.fetchLog ++ new
  nodup : (new.map Prod.fst).Nodup
  fresh : ∀ p ∈ new, w.cacheURL p.1 = none
  stored : ∀ p ∈ new, w'.cacheURL p.1 = some (entryOf p.2)
  kept : ∀ k c, w.cacheURL k = some c → w'.cacheURL k = some c
  absent : ∀ k, w.cacheURL k = none → k ∉ new.map Prod.fst → w'.cacheURL k = none

/-- What lines 42-56 yield for `url` in state `w` when the fetcher is the stateless
`f`: the answer of the stored entry on a hit, `f url` on a miss. -/
def resultOf (f : String → FetchResult) (w : World Unit) (url : String) : FetchResult :=
  (resolve (pureFetcher f) url w).1

/-- A link path `x → y₁ → … → yₖ = t` in the graph of `g`, the list being `[y₁, …, yₖ]`:
every node but the last resolves without error and has the next node among its links. -/
def LinkPath (g : String → FetchResult) : String → List String → String → Prop
  | x, [], t => x = t
  | x, y :: rest, t => (g x).2.2 = none ∧ y ∈ (g x).2.1 ∧ LinkPath g y rest t

instance instDecidableLinkPath (g : String → FetchResult) :
    ∀ (x : String) (ys : List String) (t : String), Decidable (LinkPath g x ys t)
  | x, [], t => inferInstanceAs (Decidable (x = t))
  | x, y :: rest, t =>
    have := instDecidableLinkPath g y rest t
    inferInstanceAs (Decidable ((g x).2.2 = none ∧ y ∈ (g x).2.1 ∧ LinkPath g y rest t))

/-- Every entry of `cacheURL` holds what the stateless fetcher `f` returns for its key. -/
def Agrees (f : String → FetchResult) (w : World Unit) : Prop :=
  ∀ k c, w.cacheURL k = some c → c = entryOf (f k)

/-- The url of the call of `Crawl` that printed the line. -/
def Observation.url : Observation → String
  | .Found url _ => url
  | .FetchFailed url _ => url

/-- The lines a crawl of `url` prints when `g` answers every lookup: none at depth `0`; the
error when `url` resolves to one; otherwise `Found`, then the lines of each link's crawl at
one depth less, in the order of the links. -/
def observations (g : String → FetchResult) : Nat → String → List Observation
  | 0, _ => []
  | n + 1, url =>
    match (g url).2.2 with
    | some err => [.FetchFailed url err]
    | none => .Found url (g url).1 :: (g url).2.1.flatMap (observations g n)

/-- The reference sequence of observations, as the specification words it: none for
`d ≤ 0`; the failure when `id` resolves to one; otherwise `Found(id, content)` followed by
the concatenation, in link-list order, of the sequences of the links at `d - 1`.  `g` is
what an identifier resolves to. -/
def obs (g : String → FetchResult) (id : String) (d : Int) : List Observation :=
  if d ≤ 0 then []
  else
    match (g id).2.2 with
    | some err => [.FetchFailed id err]
    | none => .Found id (g id).1 :: (g id).2.1.flatMap (fun l => obs g l (d - 1))
termination_by d.toNat
decreasing_by omega

/-- The naive crawler of the specification's comparison, for `0 ≤ depth = n`: no dedup
table, `fetcher.Fetch(url)` is called at every visited node; the rest is as in `Crawl`. -/
def naiveAux {σ : Type} (fetcher : Fetcher σ) : Nat → String → World σ → World σ
  | 0, _, w => w
  | n + 1, url, w =>
    let r := fetcher.Fetch w.fetcherState url
    let w₁ : World σ :=
      { w with fetchLog := w.fetchLog ++ [(url, r.1)], fetcherState := r.2 }
    match r.1.2.2 with
    | some err => w₁.print (.FetchFailed url err)
    | none =>
      r.1.2.1.foldl (fun acc u => naiveAux fetcher n u (acc.called u n))
        (w₁.print (.Found url r.1.1))

/-- The naive crawler for a Go `int` depth. -/
def naiveCrawl {σ : Type} (url : String) (depth : Int) (fetcher : Fetcher σ) (w : World σ) :
    World σ :=
  naiveAux fetcher depth.toNat url w

/-- What an identifier resolves to, given the table and a stateless fetcher `f`: the body,
urls and error of the table's entry for it when there is one, else what `f` returns. -/
def resolvesTo (table : String → Option CacheFetcher) (f : String → FetchResult)
    (id : String) : FetchResult :=
  match table id with
  | some c => (c.Body, c.Urls, c.Error)
  | none => f id

/-- The state when `main` (lines 71-73) returns: `Crawl("https://golang.org/", 4, fetcher)`
run from the state at program start. -/
def main : World Unit :=
  Crawl "https://golang.org/" 4 (pureFetcher fetcher.Fetch) (World.init ())

/-! ## Basic facts -/

section Basic

variable {σ : Type}

theorem crawlAux_zero (F : Fetcher σ) (url : String) (w : World σ) :
    crawlAux F 0 url w = w := rfl

theorem crawlAux_succ (F : Fetcher σ) (n : Nat) (url : String) (w : World σ) :
    crawlAux F (n + 1) url w =
      match (resolve F url w).1.2.2 with
      | some err => (resolve F url w).2.print (.FetchFailed url err)
      | none =>
        (resolve F url w).1.2.1.foldl (fun acc u => crawlAux F n u (acc.called u n))
          ((resolve F url w).2.print (.Found url (resolve F url w).1.1)) := rfl

theorem Crawl_of_nonpos (F : Fetcher σ) (url : String) (depth : Int) (w : World σ)
    (h : depth ≤ 0) : Crawl url depth F w = w := by
  unfold Crawl
  rw [Int.toNat_eq_zero.mpr h]
  rfl

/-- The recursion equation of `Crawl`, as in the source. -/
theorem Crawl_eq (F : Fetcher σ) (url : String) (depth : Int) (w : World σ) :
    Crawl url depth F w =
      if depth ≤ 0 then w
      else
        match (resolve F url w).1.2.2 with
        | some err => (resolve F url w).2.print (.FetchFailed url err)
        | none =>
          (resolve F url w).1.2.1.foldl
            (fun acc u => Crawl u (depth - 1) F (acc.called u (depth - 1)))
            ((resolve F url w).2.print (.Found url (resolve F url w).1.1)) := by
  by_cases h : depth ≤ 0
  · rw [if_pos h, Crawl_of_nonpos F url depth w h]
  · rw [if_neg h]
    obtain ⟨n, hn⟩ : ∃ n : Nat, depth = (n : Int) + 1 :=
      ⟨(depth - 1).toNat, by omega⟩
    subst hn
    have h1 : ((n : Int) + 1).toNat = n + 1 := by omega
    have h2 : (n : Int) + 1 - 1 = (n : Int) := by omega
    unfold Crawl
    rw [h1, crawlAux_succ, h2]
    simp only [Int.toNat_ofNat]

theorem foldlM_eq_some_foldl {α β : Type} (g : β → α → Option β) (h : β → α → β)
    (hg : ∀ acc a, g acc a = some (h acc a)) :
    ∀ (l : List α) (acc : β), l.foldlM g acc = some (l.foldl h acc) := by
  intro l
  induction l with
  | nil => intro acc; rfl
  | cons a l ih =>
    intro acc
    simp only [List.foldlM, List.foldl, hg, ih]
    rfl

theorem crawlFuel_eq_Crawl (F : Fetcher σ) :
    ∀ (fuel : Nat) (url : String) (depth : Int) (w : World σ), depth.toNat < fuel →
      crawlFuel F fuel url depth w = some (Crawl url depth F w) := by
  intro fuel
  induction fuel with
  | zero => intro url depth w h; omega
  | succ fuel ih =>
    intro url depth w h
    rw [Crawl_eq]
    unfold crawlFuel
    by_cases hd : depth ≤ 0
    · simp only [if_pos hd]
    · simp only [if_neg hd]
      cases hr : (resolve F url w).1.2.2 with
      | some err => rfl
      | none =>
        simp only []
        exact foldlM_eq_some_foldl _ _ (fun acc u => ih u (depth - 1) _ (by omega)) _ _

end Basic

/-! ## How a run extends the state -/

section Extension

variable {σ : Type}

theorem Extends.refl (w : World σ) : Extends w w [] :=
  ⟨by simp, by simp, by simp, by simp, fun _ _ h => h, fun _ h _ => h⟩

theorem Extends.trans {a b c : World σ} {n₁ n₂ : List (String × FetchResult)}
    (h₁ : Extends a b n₁) (h₂ : Extends b c n₂) : Extends a c (n₁ ++ n₂) := by
  refine ⟨?_, ?_, ?_, ?_, ?_, ?_⟩
  · rw [h₂.log, h₁.log, List.append_assoc]
  · rw [List.map_append, List.nodup_append]
    refine ⟨h₁.nodup, h₂.nodup, ?_⟩
    intro k hk₁ hk₂
    obtain ⟨p, hp, rfl⟩ := List.mem_map.mp hk₁
    obtain ⟨q, hq, hqp⟩ := List.mem_map.mp hk₂
    have hs := h₁.stored p hp
    have hf := h₂.fresh q hq
    rw [hqp, hs] at hf
    exact Option.noConfusion hf
  · intro p hp
    rcases List.mem_append.mp hp with hp | hp
    · exact h₁.fresh p hp
    · cases hc : a.cacheURL p.1 with
      | none => rfl
      | some c =>
        have := h₁.kept _ _ hc
        rw [h₂.fresh p hp] at this
        exact Option.noConfusion this
  · intro p hp
    rcases List.mem_append.mp hp with hp | hp
    · exact h₂.kept _ _ (h₁.stored p hp)
    · exact h₂.stored p hp
  · intro k c hc
    exact h₂.kept _ _ (h₁.kept _ _ hc)
  · intro k hk hnot
    rw [List.map_append, List.mem_append, not_or] at hnot
    exact h₂.absent k (h₁.absent k hk hnot.1) hnot.2

theorem Extends.print {w w' : World σ} {new : List (String × FetchResult)}
    (h : Extends w w' new) (o : Observation) : Extends w (w'.print o) new :=
  ⟨h.log, h.nodup, h.fresh, h.stored, h.kept, h.absent⟩

theorem Extends.called {w w' : World σ} {new : List (String × FetchResult)}
    (h : Extends w w' new) (u : String) (d : Int) : Extends w (w'.called u d) new :=
  ⟨h.log, h.nodup, h.fresh, h.stored, h.kept, h.absent⟩

theorem resolve_hit (F : Fetcher σ) (url : String) (w : World σ) (c : CacheFetcher)
    (h : w.cacheURL url = some c) : resolve F url w = (c.Fetch url, w) := by
  unfold resolve
  rw [h]

theorem resolve_miss (F : Fetcher σ) (url : String) (w : World σ)
    (h : w.cacheURL url = none) :
    resolve F url w =
      ((F.Fetch w.fetcherState url).1,
        { (w.store url (entryOf (F.Fetch w.fetcherState url).1)) with
            fetchLog := w.fetchLog ++ [(url, (F.Fetch w.fetcherState url).1)],
            fetcherState := (F.Fetch w.fetcherState url).2 }) := by
  unfold resolve
  rw [h]
  rfl

theorem resolve_extends (F : Fetcher σ) (url : String) (w : World σ) :
    ∃ new, Extends w (resolve F url w).2 new := by
  cases h : w.cacheURL url with
  | some c =>
    rw [resolve_hit F url w c h]
    exact ⟨[], Extends.refl w⟩
  | none =>
    rw [resolve_miss F url w h]
    refine ⟨[(url, (F.Fetch w.fetcherState url).1)], ?_, ?_, ?_, ?_, ?_, ?_⟩
    · rfl
    · simp
    · intro p hp
      rw [List.mem_singleton.mp hp]
      exact h
    · intro p hp
      rw [List.mem_singleton.mp hp]
      simp [World.store]
    · intro k c hc
      have hk : k ≠ url := by
        rintro rfl
        rw [h] at hc
        exact Option.noConfusion hc
      simp [World.store, hk, hc]
    · intro k hk hnot
      have hne : k ≠ url := by simpa using hnot
      simp [World.store, hne, hk]

theorem foldl_extends (g : World σ → String → World σ)
    (hg : ∀ acc u, ∃ new, Extends acc (g acc u) new) :
    ∀ (l : List String) (acc : World σ), ∃ new, Extends acc (l.foldl g acc) new := by
  intro l
  induction l with
  | nil => intro acc; exact ⟨[], Extends.refl acc⟩
  | cons u l ih =>
    intro acc
    obtain ⟨n₁, h₁⟩ := hg acc u
    obtain ⟨n₂, h₂⟩ := ih (g acc u)
    exact ⟨n₁ ++ n₂, h₁.trans h₂⟩

theorem called_extends (w : World σ) (u : String) (d : Int) : Extends w (w.called u d) [] :=
  (Extends.refl w).called u d

theorem crawlAux_extends (F : Fetcher σ) :
    ∀ (n : Nat) (url : String) (w : World σ), ∃ new, Extends w (crawlAux F n url w) new := by
  intro n
  induction n with
  | zero => intro url w; exact ⟨[], Extends.refl w⟩
  | succ n ih =>
    intro url w
    rw [crawlAux_succ]
    obtain ⟨n₀, h₀⟩ := resolve_extends F url w
    cases hr : (resolve F url w).1.2.2 with
    | some err => exact ⟨n₀, h₀.print _⟩
    | none =>
      simp only []
      obtain ⟨n₁, h₁⟩ := foldl_extends (fun acc u => crawlAux F n u (acc.called u n))
        (fun acc u => by
          obtain ⟨m, hm⟩ := ih u (acc.called u n)
          exact ⟨[] ++ m, (called_extends acc u n).trans hm⟩)
        (resolve F url w).1.2.1 ((resolve F url w).2.print (.Found url (resolve F url w).1.1))
      exact ⟨n₀ ++ n₁, (h₀.print _).trans h₁⟩

theorem Crawl_extends (F : Fetcher σ) (url : String) (depth : Int) (w : World σ) :
    ∃ new, Extends w (Crawl url depth F w) new :=
  crawlAux_extends F depth.toNat url w

end Extension

/-! ## Stateless fetchers -/

section Stateless

theorem foldl_invariant {α β : Type} (step : β → α → β) (P : β → Prop) :
    ∀ (l : List α) (acc : β), P acc → (∀ acc u, u ∈ l → P acc → P (step acc u)) →
      P (l.foldl step acc) := by
  intro l
  induction l with
  | nil => intro acc h _; exact h
  | cons a l ih =>
    intro acc h hstep
    exact ih (step acc a) (hstep acc a (List.mem_cons_self _ _) h)
      (fun acc u hu hP => hstep acc u (List.mem_cons_of_mem _ hu) hP)

theorem resultOf_hit (f : String → FetchResult) (w : World Unit) (url : String)
    (c : CacheFetcher) (h : w.cacheURL url = some c) :
    resultOf f w url = (c.Body, c.Urls, c.Error) := by
  unfold resultOf
  rw [resolve_hit _ url w c h]
  rfl

theorem resultOf_miss (f : String → FetchResult) (w : World Unit) (url : String)
    (h : w.cacheURL url = none) : resultOf f w url = f url := by
  unfold resultOf
  rw [resolve_miss _ url w h]
  rfl

theorem resultOf_congr (f : String → FetchResult) (w w' : World Unit)
    (h : w'.cacheURL = w.cacheURL) : resultOf f w' = resultOf f w := by
  funext u
  unfold resultOf resolve
  rw [h]
  cases w.cacheURL u <;> rfl

theorem resultOf_print (f : String → FetchResult) (w : World Unit) (o : Observation) :
    resultOf f (w.print o) = resultOf f w :=
  resultOf_congr f w (w.print o) rfl

theorem resultOf_called (f : String → FetchResult) (w : World Unit) (u : String) (d : Int) :
    resultOf f (w.called u d) = resultOf f w :=
  resultOf_congr f w (w.called u d) rfl

theorem resultOf_resolve (f : String → FetchResult) (url : String) (w : World Unit) :
    resultOf f (resolve (pureFetcher f) url w).2 = resultOf f w := by
  cases h : w.cacheURL url with
  | some c => rw [resolve_hit _ url w c h]
  | none =>
    rw [resolve_miss _ url w h]
    funext u
    by_cases hu : u = url
    · subst hu
      rw [resultOf_miss f w u h]
      rw [resultOf_hit f _ u (entryOf (f u)) (by simp [World.store, pureFetcher])]
      rfl
    · cases hc : w.cacheURL u with
      | some c =>
        rw [resultOf_hit f w u c hc, resultOf_hit f _ u c (by simp [World.store, hu, hc])]
      | none =>
        rw [resultOf_miss f w u hc, resultOf_miss f _ u (by simp [World.store, hu, hc])]

theorem resultOf_crawlAux (f : String → FetchResult) :
    ∀ (n : Nat) (url : String) (w : World Unit),
      resultOf f (crawlAux (pureFetcher f) n url w) = resultOf f w := by
  intro n
  induction n with
  | zero => intro url w; rfl
  | succ n ih =>
    intro url w
    rw [crawlAux_succ]
    cases hr : (resolve (pureFetcher f) url w).1.2.2 with
    | some err =>
      simp only []
      exact (resultOf_print f _ _).trans (resultOf_resolve f url w)
    | none =>
      simp only []
      refine foldl_invariant _ (fun acc => resultOf f acc = resultOf f w) _ _ ?_ ?_
      · exact (resultOf_print f _ _).trans (resultOf_resolve f url w)
      · intro acc u _ hacc
        exact (ih u (acc.called u n)).trans ((resultOf_called f acc u n).trans hacc)

theorem resultOf_Crawl (f : String → FetchResult) (url : String) (depth : Int)
    (w : World Unit) : resultOf f (Crawl url depth (pureFetcher f) w) = resultOf f w :=
  resultOf_crawlAux f depth.toNat url w

theorem stdout_foldl (f : String → FetchResult) (g : String → FetchResult) (n : Nat)
    (ih : ∀ (url : String) (w : World Unit), resultOf f w = g →
      (crawlAux (pureFetcher f) n url w).stdout = w.stdout ++ observations g n url) :
    ∀ (l : List String) (acc : World Unit), resultOf f acc = g →
      (l.foldl (fun acc u => crawlAux (pureFetcher f) n u (acc.called u n)) acc).stdout =
        acc.stdout ++ l.flatMap (observations g n) := by
  intro l
  induction l with
  | nil => intro acc _; simp
  | cons u l ihl =>
    intro acc hacc
    have h1 : resultOf f (acc.called u n) = g := (resultOf_called f acc u n).trans hacc
    rw [List.foldl_cons, ihl _ ((resultOf_crawlAux f n u _).trans h1), ih u _ h1,
      List.flatMap_cons, List.append_assoc]
    rfl

theorem stdout_crawlAux (f : String → FetchResult) :
    ∀ (n : Nat) (url : String) (w : World Unit),
      (crawlAux (pureFetcher f) n url w).stdout =
        w.stdout ++ observations (resultOf f w) n url := by
  intro n
  induction n with
  | zero => intro url w; simp [crawlAux_zero, observations]
  | succ n ih =>
    intro url w
    have hres : (resolve (pureFetcher f) url w).1 = resultOf f w url := rfl
    have hout : (resolve (pureFetcher f) url w).2.stdout = w.stdout := by
      cases h : w.cacheURL url with
      | some c => rw [resolve_hit _ url w c h]
      | none => rw [resolve_miss _ url w h]; rfl
    rw [crawlAux_succ]
    unfold observations
    rw [hres]
    cases hr : (resultOf f w url).2.2 with
    | some err =>
      simp only [World.print, hout]
    | none =>
      simp only []
      rw [stdout_foldl f (resultOf f w) n
        (fun url w hw => by rw [ih url w, hw]) (resultOf f w url).2.1
        ((resolve (pureFetcher f) url w).2.print (.Found url (resultOf f w url).1))
        ((resultOf_print f _ _).trans (resultOf_resolve f url w))]
      simp only [World.print, hout, List.append_assoc, List.singleton_append]

theorem stdout_Crawl (f : String → FetchResult) (url : String) (depth : Int)
    (w : World Unit) :
    (Crawl url depth (pureFetcher f) w).stdout =
      w.stdout ++ observations (resultOf f w) depth.toNat url :=
  stdout_crawlAux f depth.toNat url w

theorem agrees_iff (f : String → FetchResult) (w : World Unit) :
    Agrees f w ↔ resultOf f w = f := by
  constructor
  · intro h
    funext u
    cases hc : w.cacheURL u with
    | some c => rw [resultOf_hit f w u c hc, h u c hc]; rfl
    | none => exact resultOf_miss f w u hc
  · intro h k c hc
    have hk := resultOf_hit f w k c hc
    rw [h] at hk
    rw [hk]
    rfl

theorem foldl_reach {α β : Type} (step : β → α → β) (P Q : β → Prop)
    (hP : ∀ acc u, P acc → P (step acc u)) (hQ : ∀ acc u, Q acc → Q (step acc u))
    (y : α) (hy : ∀ acc, P acc → Q (step acc y)) :
    ∀ (l : List α) (acc : β), y ∈ l → P acc → Q (l.foldl step acc) := by
  intro l
  induction l with
  | nil => intro acc h _; exact absurd h (List.not_mem_nil _)
  | cons a l ih =>
    intro acc h hacc
    rw [List.foldl_cons]
    rcases List.mem_cons.mp h with rfl | h
    · exact foldl_invariant step Q l _ (hy acc hacc) (fun acc u _ hq => hQ acc u hq)
    · exact ih _ h (hP acc a hacc)

theorem resolve_key {σ : Type} (F : Fetcher σ) (url : String) (w : World σ) :
    ∃ c, (resolve F url w).2.cacheURL url = some c := by
  cases h : w.cacheURL url with
  | some c => rw [resolve_hit F url w c h]; exact ⟨c, h⟩
  | none =>
    rw [resolve_miss F url w h]
    exact ⟨entryOf (F.Fetch w.fetcherState url).1, by simp [World.store]⟩

theorem resolve_frame {σ : Type} (F : Fetcher σ) (url : String) (w : World σ) (k : String)
    (hk : k ≠ url) : (resolve F url w).2.cacheURL k = w.cacheURL k := by
  cases h : w.cacheURL url with
  | some c => rw [resolve_hit F url w c h]
  | none => rw [resolve_miss F url w h]; simp [World.store, hk]

theorem crawlAux_succ_extends {σ : Type} (F : Fetcher σ) (n : Nat) (url : String)
    (w : World σ) : ∃ new, Extends (resolve F url w).2 (crawlAux F (n + 1) url w) new := by
  rw [crawlAux_succ]
  cases hr : (resolve F url w).1.2.2 with
  | some err => exact ⟨[], (Extends.refl _).print _⟩
  | none =>
    simp only []
    obtain ⟨n₁, h₁⟩ := foldl_extends (fun acc u => crawlAux F n u (acc.called u n))
      (fun acc u => by
        obtain ⟨m, hm⟩ := crawlAux_extends F n u (acc.called u n)
        exact ⟨[] ++ m, (called_extends acc u n).trans hm⟩)
      (resolve F url w).1.2.1 ((resolve F url w).2.print (.Found url (resolve F url w).1.1))
    exact ⟨[] ++ n₁, ((Extends.refl _).print _).trans h₁⟩

/-- Every node within `n - 1` links of `s` is a key of `cacheURL` after a crawl of `s` at
depth `n`. -/
theorem covered_crawlAux (f : String → FetchResult) :
    ∀ (n : Nat) (s : String) (xs : List String) (t : String) (w : World Unit),
      LinkPath (resultOf f w) s xs t → xs.length < n →
      ∃ c, (crawlAux (pureFetcher f) n s w).cacheURL t = some c := by
  intro n
  induction n with
  | zero => intro s xs t w _ h; omega
  | succ n ih =>
    intro s xs t w hpath hlen
    cases xs with
    | nil =>
      have hst : s = t := hpath
      subst hst
      obtain ⟨c, hc⟩ := resolve_key (pureFetcher f) s w
      obtain ⟨new, hx⟩ := crawlAux_succ_extends (pureFetcher f) n s w
      exact ⟨c, hx.kept s c hc⟩
    | cons y rest =>
      obtain ⟨hok, hy, hrest⟩ := hpath
      have hlen' : rest.length < n := by simpa using hlen
      have hok' : (resolve (pureFetcher f) s w).1.2.2 = none := hok
      rw [crawlAux_succ]
      simp only [hok']
      refine foldl_reach (fun acc u => crawlAux (pureFetcher f) n u (acc.called u n))
        (fun acc => resultOf f acc = resultOf f w) (fun acc => ∃ c, acc.cacheURL t = some c)
        ?_ ?_ y ?_ _ _ hy ((resultOf_print f _ _).trans (resultOf_resolve f s w))
      · intro acc u hacc
        exact (resultOf_crawlAux f n u _).trans ((resultOf_called f acc u n).trans hacc)
      · rintro acc u ⟨c, hc⟩
        obtain ⟨new, hx⟩ := crawlAux_extends (pureFetcher f) n u (acc.called u n)
        exact ⟨c, hx.kept t c hc⟩
      · intro acc hacc
        refine ih y rest t (acc.called y n) ?_ hlen'
        rw [(resultOf_called f acc y n).trans hacc]
        exact hrest

/-- Every line a crawl prints is for a node within `n - 1` links of its start. -/
theorem observations_within (g : String → FetchResult) :
    ∀ (n : Nat) (s : String) (o : Observation), o ∈ observations g n s →
      ∃ xs, LinkPath g s xs o.url ∧ xs.length < n := by
  intro n
  induction n with
  | zero => intro s o h; simp [observations] at h
  | succ n ih =>
    intro s o h
    unfold observations at h
    cases hr : (g s).2.2 with
    | some err =>
      rw [hr] at h
      rw [List.mem_singleton.mp h]
      exact ⟨[], rfl, Nat.succ_pos n⟩
    | none =>
      rw [hr] at h
      rcases List.mem_cons.mp h with rfl | h
      · exact ⟨[], rfl, Nat.succ_pos n⟩
      · obtain ⟨u, hu, hou⟩ := List.mem_flatMap.mp h
        obtain ⟨xs, hxs, hlen⟩ := ih u o hou
        exact ⟨u :: xs, ⟨hr, hu, hxs⟩, by simpa using hlen⟩

theorem observations_head (g : String → FetchResult) (n : Nat) (s : String) :
    ∃ o, o ∈ observations g (n + 1) s ∧ o.url = s := by
  unfold observations
  cases (g s).2.2 with
  | some err => exact ⟨_, List.mem_singleton.mpr rfl, rfl⟩
  | none => exact ⟨_, List.mem_cons_self _ _, rfl⟩

/-- A crawl leaves `cacheURL` as it was at every key it prints no line for. -/
theorem frame_crawlAux (f : String → FetchResult) (k : String) :
    ∀ (n : Nat) (s : String) (w : World Unit),
      (∀ o ∈ observations (resultOf f w) n s, o.url ≠ k) →
      (crawlAux (pureFetcher f) n s w).cacheURL k = w.cacheURL k := by
  intro n
  induction n with
  | zero => intro s w _; rfl
  | succ n ih =>
    intro s w hobs
    have hks : k ≠ s := by
      obtain ⟨o, ho, hs⟩ := observations_head (resultOf f w) n s
      intro hk
      exact hobs o ho (hs.trans hk.symm)
    have hres : (resolve (pureFetcher f) s w).2.cacheURL k = w.cacheURL k :=
      resolve_frame _ s w k hks
    rw [crawlAux_succ]
    cases hr : (resolve (pureFetcher f) s w).1.2.2 with
    | some err => exact hres
    | none =>
      simp only []
      have hr' : (resultOf f w s).2.2 = none := hr
      have hchild : ∀ u ∈ (resultOf f w s).2.1, ∀ o ∈ observations (resultOf f w) n u,
          o.url ≠ k := by
        intro u hu o ho
        refine hobs o ?_
        unfold observations
        rw [hr']
        exact List.mem_cons_of_mem _ (List.mem_flatMap.mpr ⟨u, hu, ho⟩)
      have hinv := foldl_invariant (fun acc u => crawlAux (pureFetcher f) n u (acc.called u n))
        (fun acc => resultOf f acc = resultOf f w ∧ acc.cacheURL k = w.cacheURL k)
        (resolve (pureFetcher f) s w).1.2.1
        ((resolve (pureFetcher f) s w).2.print (.Found s (resolve (pureFetcher f) s w).1.1))
        ⟨(resultOf_print f _ _).trans (resultOf_resolve f s w), hres⟩
        (fun acc u hu hacc => by
          have h1 : resultOf f (acc.called u n) = resultOf f w :=
            (resultOf_called f acc u n).trans hacc.1
          refine ⟨(resultOf_crawlAux f n u _).trans h1, ?_⟩
          rw [ih u (acc.called u n) (by rw [h1]; exact hchild u hu)]
          exact hacc.2)
      exact hinv.2

theorem callLog_resolve {σ : Type} (F : Fetcher σ) (url : String) (w : World σ) :
    (resolve F url w).2.callLog = w.callLog := by
  cases h : w.cacheURL url with
  | some c => rw [resolve_hit F url w c h]
  | none => rw [resolve_miss F url w h]; rfl

theorem callLog_crawlAux {σ : Type} (F : Fetcher σ) :
    ∀ (n : Nat) (url : String) (w : World σ),
      ∃ cs, (crawlAux F n url w).callLog = w.callLog ++ cs := by
  intro n
  induction n with
  | zero => intro url w; exact ⟨[], by simp [crawlAux_zero]⟩
  | succ n ih =>
    intro url w
    rw [crawlAux_succ]
    cases hr : (resolve F url w).1.2.2 with
    | some err => exact ⟨[], by simp [World.print, callLog_resolve]⟩
    | none =>
      simp only []
      refine foldl_invariant (fun acc u => crawlAux F n u (acc.called u n))
        (fun acc => ∃ cs, acc.callLog = w.callLog ++ cs) _ _
        ⟨[], by simp [World.print, callLog_resolve]⟩ ?_
      rintro acc u _ ⟨cs, hcs⟩
      obtain ⟨cs', hcs'⟩ := ih u (acc.called u n)
      exact ⟨cs ++ (u, (n : Int)) :: cs', by rw [hcs']; simp [World.called, hcs]⟩

/-- The loop of lines 62-64 calls `Crawl` for every link. -/
theorem callLog_foldl {σ : Type} (F : Fetcher σ) (n : Nat) (Y : String) (l : List String)
    (w : World σ) (hY : Y ∈ l) :
    ∃ c₁ c₂, (l.foldl (fun acc u => crawlAux F n u (acc.called u n)) w).callLog =
      w.callLog ++ c₁ ++ (Y, (n : Int)) :: c₂ := by
  refine foldl_reach (fun acc u => crawlAux F n u (acc.called u n))
    (fun acc => ∃ cs, acc.callLog = w.callLog ++ cs)
    (fun acc => ∃ c₁ c₂, acc.callLog = w.callLog ++ c₁ ++ (Y, (n : Int)) :: c₂)
    ?_ ?_ Y ?_ l w hY ⟨[], by simp⟩
  · rintro acc u ⟨cs, hcs⟩
    obtain ⟨cs', hcs'⟩ := callLog_crawlAux F n u (acc.called u n)
    exact ⟨cs ++ (u, (n : Int)) :: cs', by rw [hcs']; simp [World.called, hcs]⟩
  · rintro acc u ⟨c₁, c₂, hc⟩
    obtain ⟨cs', hcs'⟩ := callLog_crawlAux F n u (acc.called u n)
    exact ⟨c₁, c₂ ++ (u, (n : Int)) :: cs', by rw [hcs']; simp [World.called, hc]⟩
  · rintro acc ⟨cs, hcs⟩
    obtain ⟨cs', hcs'⟩ := callLog_crawlAux F n Y (acc.called Y n)
    exact ⟨cs, cs', by rw [hcs']; simp [World.called, hcs]⟩

end Stateless

/-! ## Depth, termination, the table and failures -/

section Claims

/-- C1: for every url, fetcher, state and every `depth ≤ 0`, negative ones included, `Crawl`
returns the state it was given: nothing is printed, `Fetch` is not called and `cacheURL` is
unchanged. -/
theorem Crawl_nonpositive_depth {σ : Type} (url : String) (depth : Int) (fetcher : Fetcher σ)
    (w : World σ) (h : depth ≤ 0) :
    Crawl url depth fetcher w = w ∧
      (Crawl url depth fetcher w).stdout = w.stdout ∧
      (Crawl url depth fetcher w).fetchLog = w.fetchLog ∧
      (Crawl url depth fetcher w).cacheURL = w.cacheURL := by
  rw [Crawl_of_nonpos fetcher url depth w h]
  exact ⟨rfl, rfl, rfl, rfl⟩

theorem Crawl_nonpositive_depth_witness :
    (-3 : Int) ≤ 0 ∧
      Crawl "https://golang.org/" (-3) (pureFetcher fetcher.Fetch) (World.init ()) =
        World.init () ∧
      (Crawl "https://golang.org/" (-3) (pureFetcher fetcher.Fetch) (World.init ())).stdout =
        (World.init ()).stdout ∧
      (Crawl "https://golang.org/" (-3) (pureFetcher fetcher.Fetch) (World.init ())).fetchLog =
        (World.init ()).fetchLog ∧
      (Crawl "https://golang.org/" (-3) (pureFetcher fetcher.Fetch) (World.init ())).cacheURL =
        (World.init ()).cacheURL :=
  ⟨by decide,
    Crawl_nonpositive_depth "https://golang.org/" (-3) (pureFetcher fetcher.Fetch)
      (World.init ()) (by decide)⟩

/-- C2: a lookup that hits `cacheURL` answers from the stored entry, calls nothing and
changes nothing.  Hence in one call of `Crawl`, from any state, the calls of `Fetch` it
makes (`new`, in order) are each for a url that was not a key of `cacheURL` when `Crawl` was
called and that no earlier call of `Fetch` in this run was for, so no url is fetched twice;
from the initial state (empty `cacheURL`) the whole list of fetched urls has no
duplicates.  The link lists are arbitrary, cycles included. -/
theorem Crawl_fetches_at_most_once {σ : Type} (url : String) (depth : Int)
    (fetcher : Fetcher σ) :
    (∀ (w : World σ) (c : CacheFetcher), w.cacheURL url = some c →
      resolve fetcher url w = ((c.Body, c.Urls, c.Error), w)) ∧
    (∀ w : World σ, ∃ new : List (String × FetchResult),
      (Crawl url depth fetcher w).fetchLog = w.fetchLog ++ new ∧
      (∀ pre p post, new = pre ++ p :: post →
        w.cacheURL p.1 = none ∧ p.1 ∉ pre.map Prod.fst) ∧
      (new.map Prod.fst).Nodup) ∧
    (∀ s : σ, ((Crawl url depth fetcher (World.init s)).fetchLog.map Prod.fst).Nodup) := by
  refine ⟨fun w c hc => resolve_hit fetcher url w c hc, fun w => ?_, fun s => ?_⟩
  · obtain ⟨new, h⟩ := Crawl_extends fetcher url depth w
    refine ⟨new, h.log, ?_, h.nodup⟩
    intro pre p post hnew
    refine ⟨h.fresh p (by simp [hnew]), ?_⟩
    have hnd := h.nodup
    rw [hnew, List.map_append, List.map_cons, List.nodup_append] at hnd
    intro hmem
    exact hnd.2.2 hmem (List.mem_cons_self _ _)
  · obtain ⟨new, h⟩ := Crawl_extends fetcher url depth (World.init s)
    have hlog : (Crawl url depth fetcher (World.init s)).fetchLog = new := by
      rw [h.log]; rfl
    rw [hlog]
    exact h.nodup

/-- C3: for every integer `depth`, url, fetcher and state, the recursion of the source
(`crawlFuel`: early return for `depth ≤ 0`, recursive calls with `depth - 1`) returns a
result as soon as calls may nest `depth + 1` deep (one level when `depth ≤ 0`), whatever
the links are, cyclic or not; the result is the value of the total function `Crawl`,
defined by recursion on the depth. -/
theorem Crawl_terminates {σ : Type} (url : String) (depth : Int) (fetcher : Fetcher σ)
    (w : World σ) (fuel : Nat) (h : depth.toNat < fuel) :
    crawlFuel fetcher fuel url depth w = some (Crawl url depth fetcher w) :=
  crawlFuel_eq_Crawl fetcher fuel url depth w h

theorem Crawl_terminates_witness :
    (4 : Int).toNat < 5 ∧
      crawlFuel (pureFetcher fetcher.Fetch) 5 "https://golang.org/" 4 (World.init ()) =
        some (Crawl "https://golang.org/" 4 (pureFetcher fetcher.Fetch) (World.init ())) :=
  ⟨by decide,
    Crawl_terminates "https://golang.org/" 4 (pureFetcher fetcher.Fetch) (World.init ()) 5
      (by decide)⟩

/-- C6: every entry of `cacheURL` before a call of `Crawl` is there after it with the same
`CacheFetcher` (body, urls, error): no key is removed, no stored value is overwritten, and
a key that is new after the call was absent before it. -/
theorem cacheURL_append_only {σ : Type} (url : String) (depth : Int) (fetcher : Fetcher σ)
    (w : World σ) (k : String) (c : CacheFetcher) (h : w.cacheURL k = some c) :
    (Crawl url depth fetcher w).cacheURL k = some c := by
  obtain ⟨new, hx⟩ := Crawl_extends fetcher url depth w
  exact hx.kept k c h

theorem cacheURL_append_only_witness :
    ((World.init ()).store "https://golang.org/" ⟨"old", [], none⟩).cacheURL
        "https://golang.org/" = some ⟨"old", [], none⟩ ∧
      (Crawl "https://golang.org/" 4 (pureFetcher fetcher.Fetch)
          ((World.init ()).store "https://golang.org/" ⟨"old", [], none⟩)).cacheURL
        "https://golang.org/" = some ⟨"old", [], none⟩ :=
  ⟨by decide,
    cacheURL_append_only "https://golang.org/" 4 (pureFetcher fetcher.Fetch)
      ((World.init ()).store "https://golang.org/" ⟨"old", [], none⟩) "https://golang.org/"
      ⟨"old", [], none⟩ (by decide)⟩

/-- C7: when `u` is not a key of `cacheURL`, `depth ≥ 1` and `Fetch(u)` returns an error
`err`, `Crawl` does exactly this: one call of `Fetch`, for `u`; one entry stored, under `u`,
holding what `Fetch` returned, `err` included; one line printed, that `err`, and no `found`
line; no recursive call. -/
theorem Crawl_failed_fetch {σ : Type} (u : String) (depth : Int) (fetcher : Fetcher σ)
    (w : World σ) (err : String) (hd : 1 ≤ depth) (hmiss : w.cacheURL u = none)
    (hfail : (fetcher.Fetch w.fetcherState u).1.2.2 = some err) :
    Crawl u depth fetcher w =
      { cacheURL := fun k =>
          if k = u then
            some ⟨(fetcher.Fetch w.fetcherState u).1.1, (fetcher.Fetch w.fetcherState u).1.2.1,
              some err⟩
          else w.cacheURL k,
        stdout := w.stdout ++ [Observation.FetchFailed u err],
        fetchLog := w.fetchLog ++ [(u, (fetcher.Fetch w.fetcherState u).1)],
        callLog := w.callLog,
        fetcherState := (fetcher.Fetch w.fetcherState u).2 } := by
  rw [Crawl_eq, if_neg (by omega), resolve_miss fetcher u w hmiss]
  simp only [hfail]
  simp only [World.print, World.store, entryOf, hfail]

theorem Crawl_failed_fetch_witness :
    (1 : Int) ≤ 3 ∧ (World.init ()).cacheURL "unknown" = none ∧
      ((pureFetcher fetcher.Fetch).Fetch (World.init ()).fetcherState "unknown").1.2.2 =
        some "not found: unknown" ∧
      Crawl "unknown" 3 (pureFetcher fetcher.Fetch) (World.init ()) =
        { cacheURL := fun k =>
            if k = "unknown" then
              some ⟨((pureFetcher fetcher.Fetch).Fetch (World.init ()).fetcherState "unknown").1.1,
                ((pureFetcher fetcher.Fetch).Fetch (World.init ()).fetcherState "unknown").1.2.1,
                some "not found: unknown"⟩
            else (World.init ()).cacheURL k,
          stdout := (World.init ()).stdout ++
            [Observation.FetchFailed "unknown" "not found: unknown"],
          fetchLog := (World.init ()).fetchLog ++
            [("unknown",
              ((pureFetcher fetcher.Fetch).Fetch (World.init ()).fetcherState "unknown").1)],
          callLog := (World.init ()).callLog,
          fetcherState :=
            ((pureFetcher fetcher.Fetch).Fetch (World.init ()).fetcherState "unknown").2 } :=
  ⟨by decide, rfl, by decide,
    Crawl_failed_fetch "unknown" 3 (pureFetcher fetcher.Fetch) (World.init ())
      "not found: unknown" (by decide) rfl (by decide)⟩

/-- C8: when `cacheURL` holds for `u` an entry with an error `err` and `depth ≥ 1`, `Crawl`
prints that `err` as its one line and changes nothing else: `Fetch` is not called, whatever
it would return for `u` now, `cacheURL` is unchanged and there is no recursive call. -/
theorem Crawl_cached_failure {σ : Type} (u : String) (depth : Int) (fetcher : Fetcher σ)
    (w : World σ) (c : CacheFetcher) (err : String) (hd : 1 ≤ depth)
    (hc : w.cacheURL u = some c) (herr : c.Error = some err) :
    Crawl u depth fetcher w = { w with stdout := w.stdout ++ [Observation.FetchFailed u err] } := by
  rw [Crawl_eq, if_neg (by omega), resolve_hit fetcher u w c hc]
  simp only [CacheFetcher.Fetch, herr]
  rfl

theorem Crawl_cached_failure_witness :
    (1 : Int) ≤ 4 ∧
      ((World.init ()).store "https://golang.org/" ⟨"", [], some "timeout"⟩).cacheURL
        "https://golang.org/" = some ⟨"", [], some "timeout"⟩ ∧
      (⟨"", [], some "timeout"⟩ : CacheFetcher).Error = some "timeout" ∧
      Crawl "https://golang.org/" 4 (pureFetcher fetcher.Fetch)
          ((World.init ()).store "https://golang.org/" ⟨"", [], some "timeout"⟩) =
        { ((World.init ()).store "https://golang.org/" ⟨"", [], some "timeout"⟩) with
          stdout :=
            ((World.init ()).store "https://golang.org/" ⟨"", [], some "timeout"⟩).stdout ++
              [Observation.FetchFailed "https://golang.org/" "timeout"] } :=
  ⟨by decide, by decide, rfl,
    Crawl_cached_failure "https://golang.org/" 4 (pureFetcher fetcher.Fetch)
      ((World.init ()).store "https://golang.org/" ⟨"", [], some "timeout"⟩)
      ⟨"", [], some "timeout"⟩ "timeout" (by decide) (by decide) rfl⟩

theorem resultOf_init (f : String → FetchResult) : resultOf f (World.init ()) = f :=
  (agrees_iff f (World.init ())).mp (fun _ _ h => Option.noConfusion h)

/-- C4: from the initial state (empty `cacheURL`), for `depth ≥ 1` and a stateless fetcher
`f`, when `Crawl(s, depth, f)` has returned, every `t` at the end of a link path
`s = x₀ → x₁ → … → xₖ = t` with `k ≤ depth - 1`, whose nodes before `t` fetch without error,
is a key of `cacheURL`, holding what `f` returns for `t`, and has been fetched, also when
`t` was reached first with too little depth left to follow its links. -/
theorem Crawl_covers_reachable (f : String → FetchResult) (s t : String) (depth : Int)
    (xs : List String) (hd : 1 ≤ depth) (hpath : LinkPath f s xs t)
    (hlen : (xs.length : Int) ≤ depth - 1) :
    (Crawl s depth (pureFetcher f) (World.init ())).cacheURL t = some (entryOf (f t)) ∧
      t ∈ (Crawl s depth (pureFetcher f) (World.init ())).fetchLog.map Prod.fst := by
  have hlt : xs.length < depth.toNat := by omega
  obtain ⟨c, hc⟩ := covered_crawlAux f depth.toNat s xs t (World.init ())
    (by rw [resultOf_init]; exact hpath) hlt
  have hc' : (Crawl s depth (pureFetcher f) (World.init ())).cacheURL t = some c := hc
  have hag : Agrees f (Crawl s depth (pureFetcher f) (World.init ())) :=
    (agrees_iff f _).mpr ((resultOf_Crawl f s depth _).trans (resultOf_init f))
  obtain ⟨new, hx⟩ := Crawl_extends (pureFetcher f) s depth (World.init ())
  refine ⟨by rw [hc', hag t c hc'], ?_⟩
  have hlog : (Crawl s depth (pureFetcher f) (World.init ())).fetchLog = new := by
    rw [hx.log]; rfl
  rw [hlog]
  by_contra hnot
  have := hx.absent t rfl hnot
  rw [hc'] at this
  exact Option.noConfusion this

theorem Crawl_covers_reachable_witness :
    (1 : Int) ≤ 3 ∧ LinkPath detour.Fetch "s" ["t", "u"] "u" ∧
      ((["t", "u"] : List String).length : Int) ≤ 3 - 1 ∧
      (Crawl "s" 3 (pureFetcher detour.Fetch) (World.init ())).cacheURL "u" =
        some (entryOf (detour.Fetch "u")) ∧
      "u" ∈ (Crawl "s" 3 (pureFetcher detour.Fetch) (World.init ())).fetchLog.map Prod.fst :=
  ⟨by decide, by decide, by decide,
    Crawl_covers_reachable detour.Fetch "s" "u" 3 ["t", "u"] (by decide) (by decide)
      (by decide)⟩

/-- C5: for a stateless fetcher `f`, any state and any `depth`, every line `Crawl(s, depth,
f)` prints, every call of `Fetch` it makes and every key it adds to `cacheURL` is for a url
at the end of a link path from `s` of at most `depth - 1` links, whose nodes before the end
resolve (from `cacheURL` or by `f`) without error; nothing farther from `s` is fetched,
observed or stored. -/
theorem Crawl_within_depth (f : String → FetchResult) (s : String) (depth : Int)
    (w : World Unit) :
    ∃ (out : List Observation) (new : List (String × FetchResult)),
      (Crawl s depth (pureFetcher f) w).stdout = w.stdout ++ out ∧
      (Crawl s depth (pureFetcher f) w).fetchLog = w.fetchLog ++ new ∧
      (∀ o ∈ out, ∃ xs : List String,
        LinkPath (resultOf f w) s xs o.url ∧ (xs.length : Int) ≤ depth - 1) ∧
      (∀ p ∈ new, ∃ xs : List String,
        LinkPath (resultOf f w) s xs p.1 ∧ (xs.length : Int) ≤ depth - 1) ∧
      (∀ k, w.cacheURL k = none → (Crawl s depth (pureFetcher f) w).cacheURL k ≠ none →
        ∃ xs : List String,
          LinkPath (resultOf f w) s xs k ∧ (xs.length : Int) ≤ depth - 1) := by
  obtain ⟨new, hx⟩ := Crawl_extends (pureFetcher f) s depth w
  have hkey : ∀ k, w.cacheURL k = none → (Crawl s depth (pureFetcher f) w).cacheURL k ≠ none →
      ∃ xs : List String,
        LinkPath (resultOf f w) s xs k ∧ (xs.length : Int) ≤ depth - 1 := by
    intro k hk hk'
    by_contra hnone
    refine hk' ((frame_crawlAux f k depth.toNat s w ?_).trans hk)
    intro o ho hurl
    obtain ⟨xs, hxs, hlen⟩ := observations_within (resultOf f w) depth.toNat s o ho
    exact hnone ⟨xs, hurl ▸ hxs, by omega⟩
  refine ⟨observations (resultOf f w) depth.toNat s, new, stdout_Crawl f s depth w, hx.log,
    ?_, ?_, hkey⟩
  · intro o ho
    obtain ⟨xs, hxs, hlen⟩ := observations_within (resultOf f w) depth.toNat s o ho
    exact ⟨xs, hxs, by omega⟩
  · intro p hp
    refine hkey p.1 (hx.fresh p hp) ?_
    rw [hx.stored p hp]
    exact fun h => Option.noConfusion h

/-- C10: the entry `Crawl` stores for a url it fetches holds the body, the urls, in their
order, and the error that this call of `Fetch` returned, and still holds them when `Crawl`
returns; for a stateless fetcher `f` that is `f` of the url, and if every entry of
`cacheURL` agrees with `f` before the call, every entry agrees with it after. -/
theorem stored_result_is_fetch_result :
    (∀ (σ : Type) (url : String) (depth : Int) (fetcher : Fetcher σ) (w : World σ),
      ∃ new : List (String × FetchResult),
        (Crawl url depth fetcher w).fetchLog = w.fetchLog ++ new ∧
        ∀ p ∈ new, (Crawl url depth fetcher w).cacheURL p.1 = some ⟨p.2.1, p.2.2.1, p.2.2.2⟩) ∧
    (∀ (f : String → FetchResult) (url : String) (depth : Int) (w : World Unit),
      (∃ new : List (String × FetchResult),
        (Crawl url depth (pureFetcher f) w).fetchLog = w.fetchLog ++ new ∧
        ∀ p ∈ new, p.2 = f p.1 ∧
          (Crawl url depth (pureFetcher f) w).cacheURL p.1 =
            some ⟨(f p.1).1, (f p.1).2.1, (f p.1).2.2⟩) ∧
      (Agrees f w → Agrees f (Crawl url depth (pureFetcher f) w))) := by
  refine ⟨fun σ url depth fetcher w => ?_, fun f url depth w => ⟨?_, ?_⟩⟩
  · obtain ⟨new, hx⟩ := Crawl_extends fetcher url depth w
    exact ⟨new, hx.log, hx.stored⟩
  · obtain ⟨new, hx⟩ := Crawl_extends (pureFetcher f) url depth w
    refine ⟨new, hx.log, fun p hp => ?_⟩
    have h1 : resultOf f (Crawl url depth (pureFetcher f) w) p.1 = p.2 :=
      resultOf_hit f _ p.1 _ (hx.stored p hp)
    have h2 : resultOf f w p.1 = f p.1 := resultOf_miss f w p.1 (hx.fresh p hp)
    have h3 : p.2 = f p.1 := by rw [← h1, resultOf_Crawl, h2]
    refine ⟨h3, ?_⟩
    rw [hx.stored p hp, h3]
    rfl
  · intro h
    exact (agrees_iff f _).mpr ((resultOf_Crawl f url depth w).trans ((agrees_iff f w).mp h))

/-- C9: let `p` resolve without error to the links `L`, let `depth ≥ 2` and let some link
`X` of `L` resolve to an error.  Then for every link `Y` of `L`, before or after `X`:
`Crawl(p, depth)` calls `Crawl(Y, depth-1)`; the lines `sub` that `Crawl(Y, depth-1)`
prints, from `w` or any state `w₁` in which lookups resolve as in `w` (the states of this
run are such), are all in the output of `Crawl(p, depth)`, together and in order;
`Found(Y, c)` is among them when `Y` resolves to content `c` without error; and the error
of `X` is printed as well.  The fetcher is stateless and answers are taken from `cacheURL`
first. -/
theorem failure_is_contained (f : String → FetchResult) (w : World Unit) (p : String)
    (depth : Int) (body : String) (L : List String) (X Y err : String) (hd : 2 ≤ depth)
    (hp : resultOf f w p = (body, L, none)) (hX : X ∈ L)
    (hfail : (resultOf f w X).2.2 = some err) (hY : Y ∈ L) :
    ∃ (sub before after : List Observation) (c₁ c₂ : List (String × Int)),
      (∀ w₁ : World Unit, resultOf f w₁ = resultOf f w →
        (Crawl Y (depth - 1) (pureFetcher f) w₁).stdout = w₁.stdout ++ sub) ∧
      (Crawl p depth (pureFetcher f) w).stdout = w.stdout ++ before ++ sub ++ after ∧
      (Crawl p depth (pureFetcher f) w).callLog = w.callLog ++ c₁ ++ (Y, depth - 1) :: c₂ ∧
      (∀ c ls, resultOf f w Y = (c, ls, none) → Observation.Found Y c ∈ sub) ∧
      Observation.FetchFailed X err ∈ before ++ sub ++ after := by
  obtain ⟨n, hn⟩ : ∃ n : Nat, depth = (n : Int) + 2 := ⟨(depth - 2).toNat, by omega⟩
  subst hn
  have h1 : ((n : Int) + 2).toNat = (n + 1) + 1 := by omega
  have h2 : ((n : Int) + 2 - 1).toNat = n + 1 := by omega
  have h3 : (n : Int) + 2 - 1 = ((n + 1 : Nat) : Int) := by omega
  have hp1 : (resultOf f w p).1 = body := by rw [hp]
  have hp2 : (resultOf f w p).2.1 = L := by rw [hp]
  have hp3 : (resultOf f w p).2.2 = none := by rw [hp]
  obtain ⟨pre, post, hL⟩ := List.append_of_mem hY
  have hout : observations (resultOf f w) ((n + 1) + 1) p =
      (Observation.Found p body :: pre.flatMap (observations (resultOf f w) (n + 1))) ++
        observations (resultOf f w) (n + 1) Y ++
        post.flatMap (observations (resultOf f w) (n + 1)) := by
    rw [observations, hp3]
    simp only [hp1, hp2, hL, List.flatMap_append, List.flatMap_cons, List.cons_append,
      List.append_assoc]
  have hcalls : ∃ c₁ c₂, (Crawl p ((n : Int) + 2) (pureFetcher f) w).callLog =
      w.callLog ++ c₁ ++ (Y, ((n + 1 : Nat) : Int)) :: c₂ := by
    have hr3 : (resolve (pureFetcher f) p w).1.2.2 = none := hp3
    have hr2 : (resolve (pureFetcher f) p w).1.2.1 = L := hp2
    unfold Crawl
    rw [h1, crawlAux_succ]
    simp only [hr3, hr2]
    obtain ⟨c₁, c₂, hc⟩ := callLog_foldl (pureFetcher f) (n + 1) Y L
      ((resolve (pureFetcher f) p w).2.print
        (.Found p (resolve (pureFetcher f) p w).1.1)) hY
    exact ⟨c₁, c₂, by rw [hc]; simp [World.print, callLog_resolve]⟩
  obtain ⟨c₁, c₂, hc⟩ := hcalls
  refine ⟨observations (resultOf f w) (n + 1) Y,
    Observation.Found p body :: pre.flatMap (observations (resultOf f w) (n + 1)),
    post.flatMap (observations (resultOf f w) (n + 1)), c₁, c₂, ?_, ?_, ?_, ?_, ?_⟩
  · intro w₁ hw₁
    rw [stdout_Crawl, h2, hw₁]
  · rw [stdout_Crawl, h1, hout]
    simp only [List.append_assoc]
  · rw [hc, h3]
  · intro c ls hYr
    rw [observations]
    simp only [hYr]
    exact List.mem_cons_self _ _
  · rw [← hout, observations, hp3]
    simp only [hp2]
    refine List.mem_cons_of_mem _ (List.mem_flatMap.mpr ⟨X, hX, ?_⟩)
    rw [observations, hfail]
    exact List.mem_singleton.mpr rfl

theorem failure_is_contained_witness :
    (2 : Int) ≤ 2 ∧
      resultOf fetcher.Fetch (World.init ()) "https://golang.org/" =
        ("The Go Programming Language",
          ["https://golang.org/pkg/", "https://golang.org/cmd/"], none) ∧
      "https://golang.org/cmd/" ∈ ["https://golang.org/pkg/", "https://golang.org/cmd/"] ∧
      (resultOf fetcher.Fetch (World.init ()) "https://golang.org/cmd/").2.2 =
        some "not found: https://golang.org/cmd/" ∧
      "https://golang.org/pkg/" ∈ ["https://golang.org/pkg/", "https://golang.org/cmd/"] ∧
      ∃ (sub before after : List Observation) (c₁ c₂ : List (String × Int)),
        (∀ w₁ : World Unit, resultOf fetcher.Fetch w₁ = resultOf fetcher.Fetch (World.init ()) →
          (Crawl "https://golang.org/pkg/" (2 - 1) (pureFetcher fetcher.Fetch) w₁).stdout =
            w₁.stdout ++ sub) ∧
        (Crawl "https://golang.org/" 2 (pureFetcher fetcher.Fetch) (World.init ())).stdout =
          (World.init ()).stdout ++ before ++ sub ++ after ∧
        (Crawl "https://golang.org/" 2 (pureFetcher fetcher.Fetch) (World.init ())).callLog =
          (World.init ()).callLog ++ c₁ ++ ("https://golang.org/pkg/", 2 - 1) :: c₂ ∧
        (∀ c ls, resultOf fetcher.Fetch (World.init ()) "https://golang.org/pkg/" =
          (c, ls, none) → Observation.Found "https://golang.org/pkg/" c ∈ sub) ∧
        Observation.FetchFailed "https://golang.org/cmd/"
          "not found: https://golang.org/cmd/" ∈ before ++ sub ++ after :=
  ⟨by decide, by decide, by decide, by decide, by decide,
    failure_is_contained fetcher.Fetch (World.init ()) "https://golang.org/" 2
      "The Go Programming Language" ["https://golang.org/pkg/", "https://golang.org/cmd/"]
      "https://golang.org/cmd/" "https://golang.org/pkg/"
      "not found: https://golang.org/cmd/" (by decide) (by decide) (by decide) (by decide)
      (by decide)⟩

end Claims

/-! ## Reference crawlers -/

section Reference

theorem obs_eq_observations (g : String → FetchResult) :
    ∀ (n : Nat) (id : String) (d : Int), d.toNat = n → obs g id d = observations g n id := by
  intro n
  induction n with
  | zero =>
    intro id d hd
    rw [obs, if_pos (by omega)]
    rfl
  | succ n ih =>
    intro id d hd
    have hfun : (fun l => obs g l (d - 1)) = observations g n := by
      funext l
      exact ih l (d - 1) (by omega)
    rw [obs, if_neg (by omega), hfun]
    rfl

theorem stdout_Crawl_obs (f : String → FetchResult) (id : String) (d : Int)
    (w : World Unit) :
    (Crawl id d (pureFetcher f) w).stdout = w.stdout ++ obs (resultOf f w) id d := by
  rw [stdout_Crawl, obs_eq_observations (resultOf f w) d.toNat id d rfl]

theorem resultOf_eq_resolvesTo (f : String → FetchResult) (w : World Unit) :
    resultOf f w = resolvesTo w.cacheURL f := by
  funext u
  unfold resolvesTo
  cases h : w.cacheURL u with
  | some c => exact resultOf_hit f w u c h
  | none => exact resultOf_miss f w u h

theorem stdout_Crawl_resolvesTo (f : String → FetchResult) (id : String) (d : Int)
    (w : World Unit) :
    (Crawl id d (pureFetcher f) w).stdout = w.stdout ++ obs (resolvesTo w.cacheURL f) id d := by
  rw [stdout_Crawl_obs, resultOf_eq_resolvesTo]

theorem stdout_naive_foldl (f : String → FetchResult) (n : Nat)
    (ih : ∀ (url : String) (w : World Unit),
      (naiveAux (pureFetcher f) n url w).stdout = w.stdout ++ observations f n url) :
    ∀ (l : List String) (acc : World Unit),
      (l.foldl (fun acc u => naiveAux (pureFetcher f) n u (acc.called u n)) acc).stdout =
        acc.stdout ++ l.flatMap (observations f n) := by
  intro l
  induction l with
  | nil => intro acc; simp
  | cons u l ihl =>
    intro acc
    rw [List.foldl_cons, ihl, ih, List.flatMap_cons, List.append_assoc]
    rfl

theorem stdout_naiveAux (f : String → FetchResult) :
    ∀ (n : Nat) (url : String) (w : World Unit),
      (naiveAux (pureFetcher f) n url w).stdout = w.stdout ++ observations f n url := by
  intro n
  induction n with
  | zero => intro url w; simp [naiveAux, observations]
  | succ n ih =>
    intro url w
    unfold naiveAux observations
    have hf : ((pureFetcher f).Fetch w.fetcherState url).1 = f url := rfl
    simp only [hf]
    cases hr : (f url).2.2 with
    | some err => rfl
    | none =>
      simp only []
      rw [stdout_naive_foldl f n ih]
      simp only [World.print, List.append_assoc, List.singleton_append]

theorem stdout_naiveCrawl (f : String → FetchResult) (url : String) (depth : Int)
    (w : World Unit) :
    (naiveCrawl url depth (pureFetcher f) w).stdout =
      w.stdout ++ observations f depth.toNat url :=
  stdout_naiveAux f depth.toNat url w

end Reference

/-! ## The fixture, the order of work and the reference crawlers -/

section FixtureClaims

/-- C11, as stated, fails: in `Crawl("https://golang.org/", 2, fetcher)` from the initial
state it is not so that each of the five urls has exactly one printed line and exactly one
call of `Fetch`; the two urls two links away, `/pkg/fmt/` and `/pkg/os/`, have none. -/
theorem fixture_depth_two_counterexample :
    ¬ ∀ u ∈ ["https://golang.org/", "https://golang.org/pkg/", "https://golang.org/cmd/",
        "https://golang.org/pkg/fmt/", "https://golang.org/pkg/os/"],
      (((Crawl "https://golang.org/" 2 (pureFetcher fetcher.Fetch)
          (World.init ())).stdout.map Observation.url).count u = 1 ∧
        ((Crawl "https://golang.org/" 2 (pureFetcher fetcher.Fetch)
          (World.init ())).fetchLog.map Prod.fst).count u = 1) := by
  decide

/-- C11, amended: from the initial state `Crawl("https://golang.org/", 2, fetcher)` prints
exactly three lines, in this order: `found` for `https://golang.org/` and for
`https://golang.org/pkg/` with the fixture's bodies, and the error
`not found: https://golang.org/cmd/` (the fixture has no entry for `/cmd/`); it calls
`Fetch` exactly once for each of these three urls, in this order, and for nothing else:
`/pkg/fmt/` and `/pkg/os/` are not fetched and not observed. -/
theorem fixture_depth_two :
    (Crawl "https://golang.org/" 2 (pureFetcher fetcher.Fetch) (World.init ())).stdout =
        [Observation.Found "https://golang.org/" "The Go Programming Language",
          Observation.Found "https://golang.org/pkg/" "Packages",
          Observation.FetchFailed "https://golang.org/cmd/"
            "not found: https://golang.org/cmd/"] ∧
      (Crawl "https://golang.org/" 2 (pureFetcher fetcher.Fetch)
          (World.init ())).fetchLog.map Prod.fst =
        ["https://golang.org/", "https://golang.org/pkg/", "https://golang.org/cmd/"] := by
  decide

/-- C12, the code at the failing input: in `Crawl("https://golang.org/", 2, fetcher)` from
the initial state the recursive calls of line 63 are made in this order, one after the
other: the call for the second link `/cmd/` comes after the call for the first link
`/pkg/` and after the four calls which that one makes for its own links, and `/cmd/` is
fetched after `/pkg/`.  In general, for any fetcher, the call for a link `Y` starts in
the state that the calls for the links before `Y` have returned, and the calls for the
links after `Y` start in the state that the call for `Y` has returned. -/
theorem children_run_in_sequence :
    ((Crawl "https://golang.org/" 2 (pureFetcher fetcher.Fetch) (World.init ())).callLog =
        [("https://golang.org/pkg/", 1), ("https://golang.org/", 0),
          ("https://golang.org/cmd/", 0), ("https://golang.org/pkg/fmt/", 0),
          ("https://golang.org/pkg/os/", 0), ("https://golang.org/cmd/", 1)] ∧
      (Crawl "https://golang.org/" 2 (pureFetcher fetcher.Fetch)
          (World.init ())).fetchLog.map Prod.fst =
        ["https://golang.org/", "https://golang.org/pkg/", "https://golang.org/cmd/"]) ∧
    (∀ (σ : Type) (fetcher : Fetcher σ) (p : String) (depth : Int) (w : World σ)
      (pre : List String) (Y : String) (post : List String), 1 ≤ depth →
      (resolve fetcher p w).1.2.2 = none → (resolve fetcher p w).1.2.1 = pre ++ Y :: post →
      Crawl p depth fetcher w =
        post.foldl (fun acc u => Crawl u (depth - 1) fetcher (acc.called u (depth - 1)))
          (Crawl Y (depth - 1) fetcher
            ((pre.foldl (fun acc u => Crawl u (depth - 1) fetcher (acc.called u (depth - 1)))
              ((resolve fetcher p w).2.print
                (Observation.Found p (resolve fetcher p w).1.1))).called Y (depth - 1)))) := by
  refine ⟨by decide, ?_⟩
  intro σ fetcher p depth w pre Y post hd herr hurls
  rw [Crawl_eq fetcher p depth w, if_neg (by omega)]
  simp only [herr, hurls, List.foldl_append, List.foldl_cons]

/-- C13: for a stateless fetcher `f`, every url, depth and state, the lines `Crawl` prints
are the reference sequence `obs`, where an identifier resolves to what the table `cacheURL`
of the starting state holds for it, else to what `f` returns (`resolvesTo`): depth-first, a
node before its links, the links in their order, each link's lines complete before the
next link's first.  Two runs with the same table and fetcher print the same lines. -/
theorem Crawl_prints_preorder (f : String → FetchResult) (id : String) (d : Int)
    (w : World Unit) :
    (Crawl id d (pureFetcher f) w).stdout = w.stdout ++ obs (resolvesTo w.cacheURL f) id d ∧
      ∀ w₂ : World Unit, w₂.cacheURL = w.cacheURL →
        (Crawl id d (pureFetcher f) w₂).stdout =
          w₂.stdout ++ obs (resolvesTo w.cacheURL f) id d := by
  refine ⟨stdout_Crawl_resolvesTo f id d w, fun w₂ h => ?_⟩
  rw [stdout_Crawl_resolvesTo f id d w₂, h]

theorem Crawl_prints_preorder_witness :
    ((Crawl "unknown" 3 (pureFetcher fetcher.Fetch) (World.init ())).stdout =
        (World.init ()).stdout ++
          obs (resolvesTo (World.init ()).cacheURL fetcher.Fetch) "unknown" 3 ∧
      obs (resolvesTo (World.init ()).cacheURL fetcher.Fetch) "unknown" 3 =
        [Observation.FetchFailed "unknown" "not found: unknown"]) ∧
    ((Crawl "https://golang.org/" 3 (pureFetcher fetcher.Fetch) (World.init ())).stdout =
        (World.init ()).stdout ++
          obs (resolvesTo (World.init ()).cacheURL fetcher.Fetch) "https://golang.org/" 3 ∧
      obs (resolvesTo (World.init ()).cacheURL fetcher.Fetch) "https://golang.org/" 3 =
        [Observation.Found "https://golang.org/" "The Go Programming Language",
          Observation.Found "https://golang.org/pkg/" "Packages",
          Observation.Found "https://golang.org/" "The Go Programming Language",
          Observation.FetchFailed "https://golang.org/cmd/"
            "not found: https://golang.org/cmd/",
          Observation.Found "https://golang.org/pkg/fmt/" "Package fmt",
          Observation.Found "https://golang.org/pkg/os/" "Package os",
          Observation.FetchFailed "https://golang.org/cmd/"
            "not found: https://golang.org/cmd/"]) ∧
    ((Crawl "https://golang.org/" 3 (pureFetcher fetcher.Fetch)
          ((World.init ()).store "https://golang.org/" ⟨"old", ["unknown"], none⟩)).stdout =
        ((World.init ()).store "https://golang.org/" ⟨"old", ["unknown"], none⟩).stdout ++
          obs (resolvesTo
            ((World.init ()).store "https://golang.org/" ⟨"old", ["unknown"], none⟩).cacheURL
            fetcher.Fetch) "https://golang.org/" 3 ∧
      obs (resolvesTo
          ((World.init ()).store "https://golang.org/" ⟨"old", ["unknown"], none⟩).cacheURL
          fetcher.Fetch) "https://golang.org/" 3 =
        [Observation.Found "https://golang.org/" "old",
          Observation.FetchFailed "unknown" "not found: unknown"]) :=
  ⟨⟨(Crawl_prints_preorder fetcher.Fetch "unknown" 3 (World.init ())).1, by
      rw [obs_eq_observations _ 3 "unknown" 3 rfl]
      decide⟩,
    ⟨(Crawl_prints_preorder fetcher.Fetch "https://golang.org/" 3 (World.init ())).1, by
      rw [obs_eq_observations _ 3 "https://golang.org/" 3 rfl]
      decide⟩,
    ⟨(Crawl_prints_preorder fetcher.Fetch "https://golang.org/" 3
        ((World.init ()).store "https://golang.org/" ⟨"old", ["unknown"], none⟩)).1, by
      rw [obs_eq_observations _ 3 "https://golang.org/" 3 rfl]
      decide⟩⟩

/-- C14: for a stateless fetcher `f`, when every entry of `cacheURL` agrees with `f`,
`Crawl` prints the same lines as the naive crawler, which has no table and calls `Fetch`
at every node, from whatever state the naive crawler starts. -/
theorem cache_is_transparent (f : String → FetchResult) (url : String) (depth : Int)
    (w : World Unit) (h : Agrees f w) :
    ∃ out : List Observation,
      (Crawl url depth (pureFetcher f) w).stdout = w.stdout ++ out ∧
      ∀ w₀ : World Unit, (naiveCrawl url depth (pureFetcher f) w₀).stdout = w₀.stdout ++ out := by
  refine ⟨observations f depth.toNat url, ?_, fun w₀ => stdout_naiveCrawl f url depth w₀⟩
  rw [stdout_Crawl, (agrees_iff f w).mp h]

theorem cache_is_transparent_witness :
    Agrees fetcher.Fetch
        ((World.init ()).store "https://golang.org/cmd/"
          ⟨"", [], some "not found: https://golang.org/cmd/"⟩) ∧
      ∃ out : List Observation,
        (Crawl "https://golang.org/" 4 (pureFetcher fetcher.Fetch)
            ((World.init ()).store "https://golang.org/cmd/"
              ⟨"", [], some "not found: https://golang.org/cmd/"⟩)).stdout =
          ((World.init ()).store "https://golang.org/cmd/"
            ⟨"", [], some "not found: https://golang.org/cmd/"⟩).stdout ++ out ∧
        ∀ w₀ : World Unit,
          (naiveCrawl "https://golang.org/" 4 (pureFetcher fetcher.Fetch) w₀).stdout =
            w₀.stdout ++ out :=
  have hag : Agrees fetcher.Fetch
      ((World.init ()).store "https://golang.org/cmd/"
        ⟨"", [], some "not found: https://golang.org/cmd/"⟩) := by
    intro k c hc
    by_cases hk : k = "https://golang.org/cmd/"
    · subst hk
      have hc' : some (⟨"", [], some "not found: https://golang.org/cmd/"⟩ : CacheFetcher) =
          some c := hc
      injection hc' with hc'
      rw [← hc']
      decide
    · have hc' : (if k = "https://golang.org/cmd/" then
          some (⟨"", [], some "not found: https://golang.org/cmd/"⟩ : CacheFetcher)
          else none) = some c := hc
      rw [if_neg hk] at hc'
      exact Option.noConfusion hc'
  ⟨hag, cache_is_transparent fetcher.Fetch "https://golang.org/" 4 _ hag⟩

/-- C15: in `Crawl("https://golang.org/", 3, fetcher)` from the initial state,
`https://golang.org/` is printed as `found` twice and fetched once.  In general a hit on an
entry without error prints `found` again and calls `Crawl` for each stored link at
`depth - 1`. -/
theorem dedup_is_of_fetches :
    ((Crawl "https://golang.org/" 3 (pureFetcher fetcher.Fetch) (World.init ())).stdout.count
        (Observation.Found "https://golang.org/" "The Go Programming Language") = 2 ∧
      ((Crawl "https://golang.org/" 3 (pureFetcher fetcher.Fetch)
        (World.init ())).fetchLog.map Prod.fst).count "https://golang.org/" = 1) ∧
    (∀ (σ : Type) (fetcher : Fetcher σ) (u : String) (depth : Int) (w : World σ)
      (c : CacheFetcher), 1 ≤ depth → w.cacheURL u = some c → c.Error = none →
      Crawl u depth fetcher w =
        c.Urls.foldl (fun acc l => Crawl l (depth - 1) fetcher (acc.called l (depth - 1)))
          (w.print (Observation.Found u c.Body))) := by
  refine ⟨by decide, ?_⟩
  intro σ fetcher u depth w c hd hc herr
  rw [Crawl_eq, if_neg (by omega), resolve_hit fetcher u w c hc]
  simp only [CacheFetcher.Fetch, herr]

/-- C16: the run of `main`, `Crawl("https://golang.org/", 4, fetcher)` from the initial
state, calls `Fetch` exactly five times, for `https://golang.org/`, `/pkg/`, `/cmd/`,
`/pkg/fmt/`, `/pkg/os/` in this order; afterwards `cacheURL` has exactly these five keys,
`/cmd/` holding the error `not found: https://golang.org/cmd/` and the other four the
fixture's body and urls. -/
theorem main_run :
    main.fetchLog.map Prod.fst =
        ["https://golang.org/", "https://golang.org/pkg/", "https://golang.org/cmd/",
          "https://golang.org/pkg/fmt/", "https://golang.org/pkg/os/"] ∧
      (∀ k, main.cacheURL k ≠ none ↔
        k ∈ ["https://golang.org/", "https://golang.org/pkg/", "https://golang.org/cmd/",
          "https://golang.org/pkg/fmt/", "https://golang.org/pkg/os/"]) ∧
      main.cacheURL "https://golang.org/cmd/" =
        some ⟨"", [], some "not found: https://golang.org/cmd/"⟩ ∧
      main.cacheURL "https://golang.org/" =
        some ⟨"The Go Programming Language",
          ["https://golang.org/pkg/", "https://golang.org/cmd/"], none⟩ ∧
      main.cacheURL "https://golang.org/pkg/" =
        some ⟨"Packages",
          ["https://golang.org/", "https://golang.org/cmd/", "https://golang.org/pkg/fmt/",
            "https://golang.org/pkg/os/"], none⟩ ∧
      main.cacheURL "https://golang.org/pkg/fmt/" =
        some ⟨"Package fmt", ["https://golang.org/", "https://golang.org/pkg/"], none⟩ ∧
      main.cacheURL "https://golang.org/pkg/os/" =
        some ⟨"Package os", ["https://golang.org/", "https://golang.org/pkg/"], none⟩ := by
  have hlog : main.fetchLog.map Prod.fst =
      ["https://golang.org/", "https://golang.org/pkg/", "https://golang.org/cmd/",
        "https://golang.org/pkg/fmt/", "https://golang.org/pkg/os/"] := by decide
  refine ⟨hlog, ?_, by decide, by decide, by decide, by decide, by decide⟩
  obtain ⟨new, hx⟩ := Crawl_extends (pureFetcher fetcher.Fetch) "https://golang.org/" 4
    (World.init ())
  have hnew : main.fetchLog = new := by
    have := hx.log
    simpa [main, World.init] using this
  rw [← hlog, hnew]
  intro k
  constructor
  · intro hk
    by_contra hnot
    exact hk (hx.absent k rfl hnot)
  · intro hk
    obtain ⟨p, hp, rfl⟩ := List.mem_map.mp hk
    have := hx.stored p hp
    intro hnone
    rw [show main.cacheURL p.1 = (Crawl "https://golang.org/" 4 (pureFetcher fetcher.Fetch)
      (World.init ())).cacheURL p.1 from rfl, this] at hnone
    exact Option.noConfusion hnone

end FixtureClaims

end Crawler
